import Mathlib

/-!
Verification of the STK500v2 programmer protocol implementation in
`Cura/avr_isp/stk500v2.py` (class `Stk500v2`).

The serial transport is modelled as the list of bytes the device will send
(reads consume from the front; an exhausted list models a read timeout).
Bytes are natural numbers; the code's `struct.pack` byte/short fields are
only meaningful for values below 2^8 / 2^16, which the theorems assume
where the claims do.  The integer semantics of the module is the Python 2
semantics it was written for (`/` on naturals is floor division, iterating
a packed message yields its byte values).
-/

/-- Error kinds raised by the source, distinguished by their message strings:
`"Timeout"`, `"Serial send timeout"`, the handshake / leave-mode failures
(`ProtocolError` in the spec's taxonomy), `"Verify error at: 0x%x"` (which
carries the offending offset), and the connect-time open failures. -/
inductive IspErr where
  | timeout
  | sendTimeout
  | protocolError
  | verifyError (addr : Nat)
  | connectionError
deriving DecidableEq, Repr

/-- XOR-reduction of a list of bytes, as computed by the `checksum` loop of
`sendMessage` (lines 104-106): start from 0 and fold `^` over the bytes. -/
def xorAll (l : List Nat) : Nat :=
  l.foldl (fun a b => a ^^^ b) 0

/-- The frame of `sendMessage` (lines 101-103) before the checksum byte is
appended: `struct.pack(">BBHB", 0x1B, seq, len(data), 0x0E)` followed by the
payload bytes.  The big-endian short is the byte pair
`len >>> 8, len &&& 0xFF` (for `len ≤ 0xFFFF`; beyond that `struct.pack`
raises, which no theorem exercises). -/
def encodeBody (seq : Nat) (data : List Nat) : List Nat :=
  [0x1B, seq, data.length >>> 8, data.length &&& 0xFF, 0x0E] ++ data

/-- The full wire frame produced by `sendMessage` (lines 101-107): the body
followed by the XOR checksum of all its bytes. -/
def encodeFrame (seq : Nat) (data : List Nat) : List Nat :=
  encodeBody seq data ++ [xorAll (encodeBody seq data)]

/-- Parser states of `recvMessage` (lines 116-152), named as in the source. -/
inductive PState where
  | start
  | getSeq
  | msgSize1
  | msgSize2
  | token
  | data
  | cksum
deriving DecidableEq, Repr

/-- The mutable locals of `recvMessage`: `state`, the running `checksum`,
`msgSize` and the accumulated `data` list.  (`msgSize` and `data` are
uninitialised before `MsgSize1` / `Token` in the source; here they carry
arbitrary junk that the same assignments overwrite.) -/
structure RecvSt where
  st : PState
  checksum : Nat
  msgSize : Nat
  data : List Nat
deriving Repr

/-- The `while True` loop of `recvMessage` (lines 119-152).  Each iteration
reads one byte; an exhausted stream is a read that returned no byte, i.e. the
`raise IspError("Timeout")` of line 122.  `checksum ^= b` happens before the
state dispatch, exactly as in the source. -/
def recvLoop : RecvSt → List Nat → Except IspErr (List Nat × List Nat)
  | _, [] => .error .timeout
  | s, b :: rest =>
    let ck := s.checksum ^^^ b
    match s.st with
    | .start =>
      if b = 0x1B then
        recvLoop ⟨.getSeq, 0x1B, s.msgSize, s.data⟩ rest
      else
        recvLoop ⟨.start, ck, s.msgSize, s.data⟩ rest
    | .getSeq => recvLoop ⟨.msgSize1, ck, s.msgSize, s.data⟩ rest
    | .msgSize1 => recvLoop ⟨.msgSize2, ck, b <<< 8, s.data⟩ rest
    | .msgSize2 => recvLoop ⟨.token, ck, s.msgSize ||| b, s.data⟩ rest
    | .token =>
      if b ≠ 0x0E then
        recvLoop ⟨.start, ck, s.msgSize, s.data⟩ rest
      else
        recvLoop ⟨.data, ck, s.msgSize, []⟩ rest
    | .data =>
      let d := s.data ++ [b]
      if d.length = s.msgSize then
        recvLoop ⟨.cksum, ck, s.msgSize, d⟩ rest
      else
        recvLoop ⟨.data, ck, s.msgSize, d⟩ rest
    | .cksum =>
      if ck ≠ 0 then
        recvLoop ⟨.start, ck, s.msgSize, s.data⟩ rest
      else
        .ok (s.data, rest)

/-- `recvMessage` run against a byte stream: the loop from its initial locals
(`state = 'Start'`, `checksum = 0`).  On success it returns the decoded
payload together with the bytes left unread in the serial buffer. -/
def recvMessage (stream : List Nat) : Except IspErr (List Nat × List Nat) :=
  recvLoop ⟨.start, 0, 0, []⟩ stream

/-- The payload `recvMessage` returns for a byte stream. -/
def decodeStream (stream : List Nat) : Except IspErr (List Nat) :=
  match recvMessage stream with
  | .ok (d, _) => .ok d
  | .error e => .error e

/-- The mutable attributes of an `Stk500v2` object (lines 14-18).  `serial`
holds the bytes the device will still send (`none` = no open transport);
`sent` logs the frames written to the port, so that theorems can speak about
what was transmitted. -/
structure Conn where
  serial : Option (List Nat)
  seq : Nat
  lastAddr : Int
  sent : List (List Nat)

/-- `close` (lines 45-48): drop the transport handle. -/
def closeConn (c : Conn) : Conn :=
  { c with serial := none }

/-- `isConnected` (lines 61-62): `self.serial is not None`. -/
def isConnected (c : Conn) : Bool :=
  c.serial.isSome

/-- `sendMessage` (lines 100-114).  The frame is built from the current
`seq`, written to the port (logged in `sent`), then `seq` is incremented
(line 113) and one response frame is awaited.  A write timeout raises
`'Serial send timeout'` *before* the increment, so `seq` and the log are
unchanged in that case; `writeTimedOut` selects which branch the serial
layer takes.  Calling with no open transport is the source's attribute
error on `None`; it is modelled as a connection error. -/
def sendMessageM (writeTimedOut : Bool) (c : Conn) (data : List Nat) :
    Except IspErr (List Nat) × Conn :=
  match c.serial with
  | none => (.error .connectionError, c)
  | some s =>
    if writeTimedOut then
      (.error .sendTimeout, c)
    else
      let c1 : Conn :=
        { c with seq := (c.seq + 1) &&& 0xFF,
                 sent := c.sent ++ [encodeFrame c.seq data] }
      match recvMessage s with
      | .ok (d, rest) => (.ok d, { c1 with serial := some rest })
      | .error e => (.error e, { c1 with serial := some [] })

/-- The 12-byte enter-programming-mode payload of line 40. -/
def enterIspPayload : List Nat :=
  [0x10, 0xc8, 0x64, 0x19, 0x20, 0x00, 0x53, 0x03, 0xac, 0x53, 0x00, 0x00]

/-- `connect` (lines 20-43), run against the byte stream the freshly opened
port will deliver.  An already-open transport is closed first (lines 21-22);
the port open, DTR reset pulse and buffer flushes have no effect on the
byte-stream model; `seq` is reset to 1 (line 29); the sync frame `[1]` and
the handshake frame are sent; a handshake reply other than `[0x10, 0x00]`
closes the port and raises (lines 40-42).  Writes are modelled as not
timing out. -/
def connectM (c : Conn) (stream : List Nat) : Except IspErr Unit × Conn :=
  let c0 := if c.serial.isSome then closeConn c else c
  let c0 := { c0 with serial := some stream, seq := 1 }
  match sendMessageM false c0 [1] with
  | (.error e, c1) => (.error e, c1)
  | (.ok _, c1) =>
    match sendMessageM false c1 enterIspPayload with
    | (.error e, c2) => (.error e, c2)
    | (.ok reply, c2) =>
      if reply ≠ [0x10, 0x00] then
        (.error .protocolError, closeConn c2)
      else
        (.ok (), c2)

/-- `leaveISP` (lines 52-59): when connected, send `[0x11]`; a reply other
than `[0x11, 0x00]` raises (leaving the handle in place); otherwise the
transport handle is returned to the caller and cleared from the object. -/
def leaveISPM (c : Conn) : Except IspErr (Option (List Nat)) × Conn :=
  match c.serial with
  | none => (.ok none, c)
  | some _ =>
    match sendMessageM false c [0x11] with
    | (.error e, c1) => (.error e, c1)
    | (.ok reply, c1) =>
      if reply ≠ [0x11, 0x00] then
        (.error .protocolError, c1)
      else
        (.ok c1.serial, { c1 with serial := none })

/-- The chip descriptor consumed by `writeFlash` / `verifyFlash`:
`self.chip['pageSize']` and `self.chip['pageCount']`. -/
structure Chip where
  pageSize : Nat
  pageCount : Nat

/-- The fixed 10-byte program-page parameter header of line 79. -/
def progPageHeader (pageSize : Nat) : List Nat :=
  [0x13, pageSize >>> 8, pageSize &&& 0xFF, 0xc1, 0x0a, 0x40, 0x4c, 0x20, 0x00, 0x00]

/-- The load-address command of lines 72-75 / 86-89: address 0, high bit of
the first address byte set when the flash is larger than 64KB. -/
def loadAddrCmd (flashSize : Nat) : List Nat :=
  if flashSize > 0xFFFF then [0x06, 0x80, 0x00, 0x00, 0x00]
  else [0x06, 0x00, 0x00, 0x00, 0x00]

/-- The sequence of command payloads `writeFlash` (lines 68-81) passes to
`sendMessage`: one load-address command, then one program-page command per
`pageSize`-byte chunk of the image (`flashData[i*pageSize : i*pageSize +
pageSize]`, the last chunk possibly shorter).  `loadCount` is the integer
division `(len + pageSize - 1) / pageSize` of line 77. -/
def writeFlashCmds (chip : Chip) (flashData : List Nat) : List (List Nat) :=
  let pageSize := chip.pageSize * 2
  let loadCount := (flashData.length + pageSize - 1) / pageSize
  loadAddrCmd (pageSize * chip.pageCount) ::
    (List.range loadCount).map (fun i =>
      progPageHeader pageSize ++ ((flashData.drop (i * pageSize)).take pageSize))

/-- The sequence of command payloads `verifyFlash` (lines 83-98) passes to
`sendMessage`: one load-address command, then one fixed read-page command
per 256-byte block (`loadCount = (len + 0xFF) / 0x100`, line 91). -/
def verifyFlashCmds (chip : Chip) (flashData : List Nat) : List (List Nat) :=
  let loadCount := (flashData.length + 0xFF) / 0x100
  loadAddrCmd (chip.pageSize * 2 * chip.pageCount) ::
    (List.range loadCount).map (fun _ => [0x14, 0x01, 0x00, 0x20])

/-- The comparison loop of `verifyFlash` (lines 92-98), given the decoded
reply payload of each read-page command.  Block `i` compares bytes of
`recv = replies[i][2:0x102]` against the expected image: the first `j` in
`0..0xFF` with `i*0x100 + j < len(flashData)` and a byte mismatch raises
`'Verify error at: 0x%x' % (i*0x100 + j)`.  (`recv[j]` is a plain index in
the source; the `getD` default is only reachable when a reply is shorter
than 0x102 bytes, where the source would raise `IndexError` instead — the
theorems assume well-formed reply lengths.) -/
def verifyBlocks (flashData : List Nat) (replies : List (List Nat)) :
    List Nat → Except IspErr Unit
  | [] => .ok ()
  | i :: is =>
    let recv := ((replies.getD i []).drop 2).take 0x100
    match (List.range 0x100).find? (fun j =>
        decide (i * 0x100 + j < flashData.length ∧
                flashData.getD (i * 0x100 + j) 0 ≠ recv.getD j 0)) with
    | some j => .error (.verifyError (i * 0x100 + j))
    | none => verifyBlocks flashData replies is

/-- `verifyFlash`'s whole comparison pass: blocks `0 .. loadCount - 1`. -/
def verifyFlashCheck (flashData : List Nat) (replies : List (List Nat)) :
    Except IspErr Unit :=
  verifyBlocks flashData replies (List.range ((flashData.length + 0xFF) / 0x100))

/-- The read-back byte at absolute offset `n`, as `verifyFlash` reassembles
it from the reply payloads: byte `n % 0x100` of `replies[n / 0x100][2:0x102]`. -/
def readBackAt (replies : List (List Nat)) (n : Nat) : Nat :=
  (((replies.getD (n / 0x100) []).drop 2).take 0x100).getD (n % 0x100) 0

/-! ### Small-step lemmas for the receive state machine -/

theorem recvLoop_nil (s : RecvSt) : recvLoop s [] = .error .timeout := rfl

theorem recvLoop_start_hit (c ms : Nat) (d : List Nat) (rest : List Nat) :
    recvLoop ⟨.start, c, ms, d⟩ (0x1B :: rest) = recvLoop ⟨.getSeq, 0x1B, ms, d⟩ rest := by
  simp [recvLoop]

theorem recvLoop_start_miss (b c ms : Nat) (d : List Nat) (rest : List Nat)
    (h : b ≠ 0x1B) :
    recvLoop ⟨.start, c, ms, d⟩ (b :: rest) = recvLoop ⟨.start, c ^^^ b, ms, d⟩ rest := by
  simp [recvLoop, h]

theorem recvLoop_getSeq (b c ms : Nat) (d : List Nat) (rest : List Nat) :
    recvLoop ⟨.getSeq, c, ms, d⟩ (b :: rest) = recvLoop ⟨.msgSize1, c ^^^ b, ms, d⟩ rest := by
  simp [recvLoop]

theorem recvLoop_msgSize1 (b c ms : Nat) (d : List Nat) (rest : List Nat) :
    recvLoop ⟨.msgSize1, c, ms, d⟩ (b :: rest) =
      recvLoop ⟨.msgSize2, c ^^^ b, b <<< 8, d⟩ rest := by
  simp [recvLoop]

theorem recvLoop_msgSize2 (b c ms : Nat) (d : List Nat) (rest : List Nat) :
    recvLoop ⟨.msgSize2, c, ms, d⟩ (b :: rest) =
      recvLoop ⟨.token, c ^^^ b, ms ||| b, d⟩ rest := by
  simp [recvLoop]

theorem recvLoop_token_miss (b c ms : Nat) (d : List Nat) (rest : List Nat)
    (h : b ≠ 0x0E) :
    recvLoop ⟨.token, c, ms, d⟩ (b :: rest) = recvLoop ⟨.start, c ^^^ b, ms, d⟩ rest := by
  simp [recvLoop, h]

theorem recvLoop_token_hit (c ms : Nat) (d : List Nat) (rest : List Nat) :
    recvLoop ⟨.token, c, ms, d⟩ (0x0E :: rest) = recvLoop ⟨.data, c ^^^ 0x0E, ms, []⟩ rest := by
  simp [recvLoop]

theorem recvLoop_data_done (b c ms : Nat) (d : List Nat) (rest : List Nat)
    (h : d.length + 1 = ms) :
    recvLoop ⟨.data, c, ms, d⟩ (b :: rest) =
      recvLoop ⟨.cksum, c ^^^ b, ms, d ++ [b]⟩ rest := by
  simp [recvLoop, h]

theorem recvLoop_data_more (b c ms : Nat) (d : List Nat) (rest : List Nat)
    (h : d.length + 1 ≠ ms) :
    recvLoop ⟨.data, c, ms, d⟩ (b :: rest) =
      recvLoop ⟨.data, c ^^^ b, ms, d ++ [b]⟩ rest := by
  simp [recvLoop, h]

theorem recvLoop_cksum_bad (b c ms : Nat) (d : List Nat) (rest : List Nat)
    (h : c ^^^ b ≠ 0) :
    recvLoop ⟨.cksum, c, ms, d⟩ (b :: rest) = recvLoop ⟨.start, c ^^^ b, ms, d⟩ rest := by
  simp [recvLoop, h]

theorem recvLoop_cksum_ok (b c ms : Nat) (d : List Nat) (rest : List Nat)
    (h : c ^^^ b = 0) :
    recvLoop ⟨.cksum, c, ms, d⟩ (b :: rest) = .ok (d, rest) := by
  simp [recvLoop, h]

/-! ### Composite parsing lemmas -/

theorem foldl_xor_init (l : List Nat) : ∀ c : Nat,
    l.foldl (fun a b => a ^^^ b) c = c ^^^ xorAll l := by
  induction l with
  | nil => intro c; simp [xorAll]
  | cons x xs ih =>
    intro c
    have h1 : (x :: xs).foldl (fun a b => a ^^^ b) c =
        xs.foldl (fun a b => a ^^^ b) (c ^^^ x) := rfl
    have h2 : xorAll (x :: xs) = xs.foldl (fun a b => a ^^^ b) (0 ^^^ x) := rfl
    rw [h1, h2, ih, ih (0 ^^^ x), Nat.zero_xor, Nat.xor_assoc]

theorem xorAll_append (l1 l2 : List Nat) :
    xorAll (l1 ++ l2) = xorAll l1 ^^^ xorAll l2 := by
  simp only [xorAll, List.foldl_append]
  rw [← xorAll, ← xorAll, foldl_xor_init]

/-- The big-endian length bytes written by `struct.pack(">H", n)` reassemble
to `n` under the decoder's `(hi << 8) | lo`. -/
theorem hilo_or (n : Nat) : (n >>> 8) <<< 8 ||| (n &&& 0xFF) = n := by
  apply Nat.eq_of_testBit_eq
  intro i
  have h255 : (0xFF : Nat) = 2 ^ 8 - 1 := by norm_num
  simp only [Nat.testBit_or, Nat.testBit_shiftLeft, Nat.testBit_shiftRight, h255,
    Nat.and_pow_two_sub_one_eq_mod, Nat.testBit_mod_two_pow]
  by_cases h : 8 ≤ i
  · have h2 : ¬ i < 8 := by omega
    have h3 : 8 + (i - 8) = i := by omega
    simp [h, h2, h3]
  · have h2 : i < 8 := by omega
    simp [h, h2]

/-- Bytes that are not the start marker are discarded in `Start` state; only
the running checksum changes. -/
theorem noiseSkip (noise : List Nat) : ∀ (c ms : Nat) (d rest : List Nat),
    (∀ b ∈ noise, b ≠ 0x1B) →
    recvLoop ⟨.start, c, ms, d⟩ (noise ++ rest) =
      recvLoop ⟨.start, noise.foldl (fun a b => a ^^^ b) c, ms, d⟩ rest := by
  induction noise with
  | nil => intro c ms d rest _; rfl
  | cons x xs ih =>
    intro c ms d rest h
    have hx : x ≠ 0x1B := h x (List.mem_cons_self x xs)
    rw [List.cons_append, recvLoop_start_miss x c ms d _ hx, List.foldl_cons]
    exact ih (c ^^^ x) ms d rest (fun b hb => h b (List.mem_cons_of_mem x hb))

/-- In `Data` state the machine consumes exactly the missing bytes and moves
to `Checksum` on the last one. -/
theorem dataRun (p : List Nat) : ∀ (acc : List Nat) (c ms : Nat) (rest : List Nat),
    p ≠ [] → acc.length + p.length = ms →
    recvLoop ⟨.data, c, ms, acc⟩ (p ++ rest) =
      recvLoop ⟨.cksum, p.foldl (fun a b => a ^^^ b) c, ms, acc ++ p⟩ rest := by
  induction p with
  | nil => intro acc c ms rest h; exact absurd rfl h
  | cons x xs ih =>
    intro acc c ms rest _ hlen
    rcases xs with _ | ⟨y, ys⟩
    · have hdone : acc.length + 1 = ms := by simpa using hlen
      rw [List.cons_append, List.nil_append,
        recvLoop_data_done x c ms acc rest hdone]
      simp
    · have hmore : acc.length + 1 ≠ ms := by
        simp only [List.length_cons] at hlen
        omega
      rw [List.cons_append, recvLoop_data_more x c ms acc _ hmore]
      have hys : (y :: ys) ≠ ([] : List Nat) := by simp
      have hlen2 : (acc ++ [x]).length + (y :: ys).length = ms := by
        simp only [List.length_append, List.length_cons, List.length_nil] at hlen ⊢
        omega
      rw [ih (acc ++ [x]) (c ^^^ x) ms rest hys hlen2, List.append_assoc]
      rfl

/-- A well-formed frame with a nonempty payload parses from `Start` state in
one pass, whatever junk the checksum/size/data locals hold, and leaves the
trailing bytes unread. -/
theorem parseValid (q : Nat) (p : List Nat) (c ms : Nat) (d rest : List Nat)
    (hp : p ≠ []) :
    recvLoop ⟨.start, c, ms, d⟩ (encodeFrame q p ++ rest) = .ok (p, rest) := by
  have hck : xorAll (encodeBody q p) =
      (((((0x1B : Nat) ^^^ q) ^^^ (p.length >>> 8)) ^^^ (p.length &&& 0xFF)) ^^^ 0x0E)
        ^^^ xorAll p := by
    have : encodeBody q p =
        [0x1B, q, p.length >>> 8, p.length &&& 0xFF, 0x0E] ++ p := rfl
    rw [this, xorAll_append]
    simp [xorAll]
  have hstream : encodeFrame q p ++ rest =
      0x1B :: q :: (p.length >>> 8) :: (p.length &&& 0xFF) :: 0x0E ::
        (p ++ (xorAll (encodeBody q p) :: rest)) := by
    simp [encodeFrame, encodeBody]
  have hz : (p.foldl (fun a b => a ^^^ b)
        (((((0x1B : Nat) ^^^ q) ^^^ (p.length >>> 8)) ^^^ (p.length &&& 0xFF)) ^^^ 0x0E))
      ^^^ xorAll (encodeBody q p) = 0 := by
    rw [foldl_xor_init, hck, Nat.xor_self]
  rw [hstream, recvLoop_start_hit, recvLoop_getSeq, recvLoop_msgSize1, recvLoop_msgSize2,
    recvLoop_token_hit, hilo_or,
    dataRun p [] _ p.length _ hp (by simp),
    recvLoop_cksum_ok _ _ _ _ _ hz]
  rfl


/-- A well-formed frame body (with nonempty declared payload) drives the
machine from `Start` to the `Checksum` state, with the running checksum equal
to the XOR of the body's bytes and the payload accumulated. -/
theorem parseToCk (q : Nat) (p : List Nat) (c ms : Nat) (d rest : List Nat)
    (hp : p ≠ []) :
    recvLoop ⟨.start, c, ms, d⟩ (encodeBody q p ++ rest) =
      recvLoop ⟨.cksum, xorAll (encodeBody q p), p.length, p⟩ rest := by
  have hck : xorAll (encodeBody q p) =
      (((((0x1B : Nat) ^^^ q) ^^^ (p.length >>> 8)) ^^^ (p.length &&& 0xFF)) ^^^ 0x0E)
        ^^^ xorAll p := by
    have h : encodeBody q p =
        [0x1B, q, p.length >>> 8, p.length &&& 0xFF, 0x0E] ++ p := rfl
    rw [h, xorAll_append]
    simp [xorAll]
  have hstream : encodeBody q p ++ rest =
      0x1B :: q :: (p.length >>> 8) :: (p.length &&& 0xFF) :: 0x0E :: (p ++ rest) := by
    simp [encodeBody]
  rw [hstream, recvLoop_start_hit, recvLoop_getSeq, recvLoop_msgSize1, recvLoop_msgSize2,
    recvLoop_token_hit, hilo_or,
    dataRun p [] _ p.length _ hp (by simp),
    foldl_xor_init, hck]
  rfl

theorem decodeStream_ok {s p rest : List Nat} (h : recvMessage s = .ok (p, rest)) :
    decodeStream s = .ok p := by
  unfold decodeStream
  rw [h]

/-! ### Claim theorems for the frame codec -/

/-- C1 (amended): for every sequence number 0-255 and every payload of 1-2047
byte values, decoding the byte string the encoder produces yields exactly the
original payload; in particular encoding sequence 1 with payload `[0x11]`
produces `1B 01 00 01 0E 11 04` (`04` being the XOR of the six preceding
bytes) and decoding it returns `[0x11]`.  (Zero-length payloads, which the
claim as stated also covers, do not round-trip: see the counterexample.) -/
theorem roundtrip_ok (seq : Nat) (p : List Nat)
    (hseq : seq ≤ 0xFF) (hlen1 : 1 ≤ p.length) (hlen2 : p.length ≤ 2047)
    (hbytes : ∀ b ∈ p, b ≤ 0xFF) :
    decodeStream (encodeFrame seq p) = .ok p ∧
    encodeFrame 1 [0x11] = [0x1B, 0x01, 0x00, 0x01, 0x0E, 0x11, 0x04] ∧
    decodeStream (encodeFrame 1 [0x11]) = .ok [0x11] := by
  refine ⟨?_, by rfl, by rfl⟩
  have hp : p ≠ [] := by
    cases p
    · simp at hlen1
    · simp
  apply decodeStream_ok
  unfold recvMessage
  rw [← List.append_nil (encodeFrame seq p)]
  exact parseValid seq p 0 0 [] [] hp

theorem roundtrip_ok_witness :
    decodeStream (encodeFrame 1 [0x11]) = .ok [0x11] ∧
    encodeFrame 1 [0x11] = [0x1B, 0x01, 0x00, 0x01, 0x0E, 0x11, 0x04] ∧
    decodeStream (encodeFrame 1 [0x11]) = .ok [0x11] :=
  roundtrip_ok 1 [0x11] (by decide) (by decide) (by decide) (by decide)

/-- C1 counterexample: the claim includes zero-length payloads, but the
decoder's `Data` state appends a byte *before* comparing the accumulated
length with `msgSize`, so with `msgSize = 0` the count can never match: the
frame `encode(1, [])` swallows its own checksum byte as data and the read
runs off the end of the frame, failing with Timeout instead of returning
`[]`. -/
theorem roundtrip_empty_cex :
    decodeStream (encodeFrame 1 []) = .error .timeout ∧
    encodeFrame 1 [] = [0x1B, 0x01, 0x00, 0x00, 0x0E, 0x14] := by
  exact ⟨rfl, rfl⟩

/-- C2: the XOR of all bytes of a frame produced by the encoder — header,
sequence, the two length bytes, token, payload and trailing checksum — is 0,
for every sequence number 0-255 and every payload of byte values. -/
theorem frame_xor_zero (seq : Nat) (p : List Nat)
    (hseq : seq ≤ 0xFF) (hlen : p.length ≤ 0xFFFF) (hbytes : ∀ b ∈ p, b ≤ 0xFF) :
    xorAll (encodeFrame seq p) = 0 := by
  unfold encodeFrame
  rw [xorAll_append]
  have h1 : xorAll [xorAll (encodeBody seq p)] = xorAll (encodeBody seq p) := by
    simp [xorAll]
  rw [h1, Nat.xor_self]

theorem frame_xor_zero_witness : xorAll (encodeFrame 1 [0x11]) = 0 :=
  frame_xor_zero 1 [0x11] (by decide) (by decide) (by decide)

/-- C9: a read that yields no byte fails immediately with Timeout in every
parser state, and a stream that never contains the start marker `0x1B` is
consumed entirely in `Start` state and likewise fails with Timeout. -/
theorem read_timeout :
    (∀ s : RecvSt, recvLoop s [] = .error .timeout) ∧
    (∀ stream : List Nat, (∀ b ∈ stream, b ≠ 0x1B) →
      decodeStream stream = .error .timeout) := by
  constructor
  · intro s
    rfl
  · intro stream h
    unfold decodeStream recvMessage
    rw [← List.append_nil stream, noiseSkip stream 0 0 [] [] h, recvLoop_nil]

theorem read_timeout_witness :
    recvLoop ⟨.data, 0, 5, []⟩ [] = .error .timeout ∧
    decodeStream [0x00, 0x41, 0xFE] = .error .timeout :=
  ⟨read_timeout.1 ⟨.data, 0, 5, []⟩, read_timeout.2 [0x00, 0x41, 0xFE] (by decide)⟩

/-- A frame of `encode(seq, p)` with its trailing checksum byte replaced by
`bad` (the claim's "flipping its checksum byte"). -/
def corruptCk (seq : Nat) (p : List Nat) (bad : Nat) : List Nat :=
  encodeBody seq p ++ [bad]

/-- A frame of `encode(seq, p)` with its token byte (offset 4) replaced by
`t` (the claim's "replacing its token byte"). -/
def corruptTok (seq : Nat) (p : List Nat) (t : Nat) : List Nat :=
  [0x1B, seq, p.length >>> 8, p.length &&& 0xFF, t] ++ p ++
    [xorAll (encodeBody seq p)]

/-- C3 (amended): a corrupted frame followed by a valid frame `F` is skipped
and decoding returns `F`'s payload, provided both payloads are nonempty and,
in the token-corruption case, none of the corrupted frame's remaining bytes
(its payload and checksum byte) equals the start marker `0x1B`.  The
replacement token byte `t` itself is unrestricted (it may even be `0x1B`):
the parser consumes it as noise and does not treat it as a new frame start.
Without the added provisos the claim fails: see the counterexample. -/
theorem resync_skip (seqC seqF : Nat) (pC pF : List Nat) (bad t : Nat)
    (hpF : pF ≠ []) :
    (pC ≠ [] → bad ≠ xorAll (encodeBody seqC pC) →
      decodeStream (corruptCk seqC pC bad ++ encodeFrame seqF pF) = .ok pF) ∧
    (t ≠ 0x0E → (∀ b ∈ pC ++ [xorAll (encodeBody seqC pC)], b ≠ 0x1B) →
      decodeStream (corruptTok seqC pC t ++ encodeFrame seqF pF) = .ok pF) := by
  constructor
  · intro hpC hbad
    apply decodeStream_ok
    unfold recvMessage
    have hsplit : corruptCk seqC pC bad ++ encodeFrame seqF pF =
        encodeBody seqC pC ++ (bad :: encodeFrame seqF pF) := by
      simp [corruptCk]
    have hnz : xorAll (encodeBody seqC pC) ^^^ bad ≠ 0 := by
      intro h
      exact hbad (Nat.xor_eq_zero.mp h).symm
    rw [hsplit, parseToCk seqC pC 0 0 [] _ hpC,
      recvLoop_cksum_bad _ _ _ _ _ hnz,
      ← List.append_nil (encodeFrame seqF pF),
      parseValid seqF pF _ _ _ _ hpF]
  · intro ht hclean
    apply decodeStream_ok
    unfold recvMessage
    have hsplit : corruptTok seqC pC t ++ encodeFrame seqF pF =
        0x1B :: seqC :: (pC.length >>> 8) :: (pC.length &&& 0xFF) :: t ::
          ((pC ++ [xorAll (encodeBody seqC pC)]) ++ encodeFrame seqF pF) := by
      simp [corruptTok]
    rw [hsplit, recvLoop_start_hit, recvLoop_getSeq, recvLoop_msgSize1,
      recvLoop_msgSize2, recvLoop_token_miss _ _ _ _ _ ht,
      noiseSkip _ _ _ _ _ hclean,
      ← List.append_nil (encodeFrame seqF pF),
      parseValid seqF pF _ _ _ _ hpF]

theorem resync_skip_witness :
    decodeStream (corruptCk 0 [5, 6] 99 ++ encodeFrame 0 [0x11]) = .ok [0x11] ∧
    decodeStream (corruptTok 7 [5, 6] 0x1B ++ encodeFrame 0 [0x11]) = .ok [0x11] :=
  ⟨(resync_skip 0 0 [5, 6] [0x11] 99 0x1B (by decide)).1 (by decide) (by decide),
   (resync_skip 7 0 [5, 6] [0x11] 99 0x1B (by decide)).2 (by decide) (by decide)⟩

/-- C3 counterexample, falsifying the claim as stated in four concrete
instances.  (1) A token-corrupted frame whose payload contains `0x1B`:
after the token mismatch the parser re-enters `Start` and latches onto that
payload byte as a bogus frame start, mis-parsing through the following valid
frame — with nothing after it, decoding times out rather than returning
`[0x11]`.  (2) The same stream followed by one more valid frame: decoding
returns that later frame's payload `[0x22]`, not the payload `[0x11]` of the
frame immediately after the corrupted one, so the failure is not the
timeout proviso's doing.  (3) A checksum-corrupted frame with an empty
payload jams the `Data` state (`msgSize = 0` never matches the accumulated
length), so the following valid frame is consumed as data and decoding times
out.  (4) A valid-frame-after-corruption with empty payload cannot be
returned either, for the same `Data`-state reason. -/
theorem resync_skip_cex :
    decodeStream (corruptTok 0 [0x1B, 0x00] 0x00 ++ encodeFrame 0 [0x11]) =
      .error .timeout ∧
    decodeStream (corruptTok 0 [0x1B, 0x00] 0x00 ++ encodeFrame 0 [0x11] ++
      encodeFrame 0 [0x22]) = .ok [0x22] ∧
    decodeStream (corruptCk 0 [] 0x00 ++ encodeFrame 0 [0x11]) = .error .timeout ∧
    decodeStream (corruptCk 0 [0x11] 0x99 ++ encodeFrame 0 []) = .error .timeout := by
  exact ⟨rfl, rfl, rfl, rfl⟩

/-! ### Connection-layer lemmas -/

/-- The only error `recvMessage` can produce is Timeout: every other outcome
of the loop is a successful frame. -/
theorem recvLoop_err (s : List Nat) : ∀ (st : RecvSt) (e : IspErr),
    recvLoop st s = .error e → e = .timeout := by
  induction s with
  | nil =>
    intro st e h
    rw [recvLoop_nil] at h
    injection h with h2
    exact h2.symm
  | cons b rest ih =>
    intro st e h
    rcases st with ⟨ps, c, ms, d⟩
    cases ps <;> simp only [recvLoop] at h
    case start => split at h <;> exact ih _ _ h
    case getSeq => exact ih _ _ h
    case msgSize1 => exact ih _ _ h
    case msgSize2 => exact ih _ _ h
    case token => split at h <;> exact ih _ _ h
    case data => split at h <;> exact ih _ _ h
    case cksum =>
      split at h
      · exact ih _ _ h
      · cases h

/-- `sendMessage` on an open port whose stream decodes successfully: the
reply payload is returned, the sequence number advances, the frame is
logged, and the unread tail stays in the buffer. -/
theorem sendM_ok (c : Conn) (s data p rest : List Nat) (h : c.serial = some s)
    (hr : recvMessage s = .ok (p, rest)) :
    sendMessageM false c data =
      (.ok p, { c with serial := some rest, seq := (c.seq + 1) &&& 0xFF,
                       sent := c.sent ++ [encodeFrame c.seq data] }) := by
  simp [sendMessageM, h, hr]

/-- `sendMessage` on an open port whose stream fails to decode: the error
propagates, but the sequence number has already advanced and the frame was
written. -/
theorem sendM_err (c : Conn) (s data : List Nat) (e : IspErr) (h : c.serial = some s)
    (hr : recvMessage s = .error e) :
    sendMessageM false c data =
      (.error e, { c with serial := some [], seq := (c.seq + 1) &&& 0xFF,
                          sent := c.sent ++ [encodeFrame c.seq data] }) := by
  simp [sendMessageM, h, hr]

/-- `connect`'s full run when both replies decode: the handshake reply `q`
decides between success and a protocol error with the port closed. -/
theorem connectM_run (c : Conn) (stream r1 r2 p q : List Nat)
    (h1 : recvMessage stream = .ok (p, r1))
    (h2 : recvMessage r1 = .ok (q, r2)) :
    connectM c stream =
      (if q = [0x10, 0x00] then
        (.ok (), ⟨some r2, 3, c.lastAddr,
          (c.sent ++ [encodeFrame 1 [1]]) ++ [encodeFrame 2 enterIspPayload]⟩)
      else
        (.error .protocolError, ⟨none, 3, c.lastAddr,
          (c.sent ++ [encodeFrame 1 [1]]) ++ [encodeFrame 2 enterIspPayload]⟩)) := by
  cases hser : c.serial <;>
    simp [connectM, sendMessageM, hser, h1, h2, closeConn] <;>
    split <;> simp_all <;> exact ⟨by rfl, by rfl⟩

/-- Opening over an already-open transport first closes it (lines 21-22), so
connect behaves exactly as on a closed instance. -/
theorem connect_after_close (c : Conn) (stream : List Nat) :
    connectM c stream = connectM (closeConn c) stream := by
  cases hser : c.serial <;> simp [connectM, closeConn, hser]

/-- Whatever the device answers, connect's first transmitted frame is the
sync frame `[1]` encoded with sequence number 1. -/
theorem connect_sent (c : Conn) (stream : List Nat) :
    ∃ tail, (connectM c stream).2.sent = c.sent ++ encodeFrame 1 [1] :: tail := by
  cases hr1 : recvMessage stream with
  | error e =>
    refine ⟨[], ?_⟩
    cases hser : c.serial <;>
      simp [connectM, sendMessageM, hser, closeConn, hr1]
  | ok v1 =>
    obtain ⟨p, r1⟩ := v1
    cases hr2 : recvMessage r1 with
    | error e2 =>
      refine ⟨[encodeFrame 2 enterIspPayload], ?_⟩
      cases hser : c.serial <;>
        simp [connectM, sendMessageM, hser, closeConn, hr1, hr2] <;> rfl
    | ok v2 =>
      obtain ⟨q, r2⟩ := v2
      refine ⟨[encodeFrame 2 enterIspPayload], ?_⟩
      rw [connectM_run c stream r1 r2 p q hr1 hr2]
      split <;> simp

/-! ### Claim theorems for the connection layer -/

/-- C4: connect succeeds exactly when the decoded reply to the
enter-programming-mode frame is `[0x10, 0x00]`; any other decoded reply
produces a protocol error with the transport already closed (serial handle
cleared) when the error surfaces. -/
theorem connect_handshake (c : Conn) (stream r1 r2 p q : List Nat)
    (h1 : recvMessage stream = .ok (p, r1))
    (h2 : recvMessage r1 = .ok (q, r2)) :
    (q = [0x10, 0x00] → (connectM c stream).1 = .ok ()) ∧
    (q ≠ [0x10, 0x00] →
      (connectM c stream).1 = .error .protocolError ∧
      (connectM c stream).2.serial = none) := by
  have hrun := connectM_run c stream r1 r2 p q h1 h2
  constructor
  · intro hq
    rw [hrun, if_pos hq]
  · intro hq
    rw [hrun, if_neg hq]
    exact ⟨rfl, rfl⟩

theorem connect_handshake_witness :
    (connectM ⟨none, 9, -1, []⟩
        (encodeFrame 1 [1, 0] ++ encodeFrame 2 [0x11, 0x22])).1 =
      .error .protocolError ∧
    (connectM ⟨none, 9, -1, []⟩
        (encodeFrame 1 [1, 0] ++ encodeFrame 2 [0x11, 0x22])).2.serial = none :=
  (connect_handshake ⟨none, 9, -1, []⟩
      (encodeFrame 1 [1, 0] ++ encodeFrame 2 [0x11, 0x22])
      (encodeFrame 2 [0x11, 0x22]) [] [1, 0] [0x11, 0x22]
      (by rfl) (by rfl)).2 (by decide)

/-- C8 (amended): when the write succeeds the sequence number advances by
exactly 1 mod 256 whatever the receive outcome; when the write times out
the source raises before the increment, leaving the sequence number
unchanged; and connect resets the counter before transmitting, so its first
frame (the sync frame `[1]`) is encoded with sequence number 1.  (The claim
as stated — an increment on *every* call including write timeouts — fails:
see the counterexample.) -/
theorem seq_increment (c : Conn) (s data : List Nat) (h : c.serial = some s) :
    (sendMessageM false c data).2.seq = (c.seq + 1) % 256 ∧
    ((sendMessageM true c data).2.seq = c.seq ∧
     (sendMessageM true c data).1 = .error .sendTimeout) ∧
    (∀ (c' : Conn) (stream : List Nat),
      ((connectM c' stream).2.sent.drop c'.sent.length).head? =
        some (encodeFrame 1 [1])) := by
  have hmod : ∀ n : Nat, n &&& 0xFF = n % 256 := by
    intro n
    have h8 : (0xFF : Nat) = 2 ^ 8 - 1 := by norm_num
    rw [h8, Nat.and_pow_two_sub_one_eq_mod]
  refine ⟨?_, ⟨?_, ?_⟩, ?_⟩
  · cases hr : recvMessage s with
    | error e => rw [sendM_err c s data e h hr]; exact hmod _
    | ok v =>
      obtain ⟨p, rest⟩ := v
      rw [sendM_ok c s data p rest h hr]
      exact hmod _
  · simp [sendMessageM, h]
  · simp [sendMessageM, h]
  · intro c' stream
    obtain ⟨tail, htail⟩ := connect_sent c' stream
    rw [htail, List.drop_left]
    rfl

theorem seq_increment_witness :
    (sendMessageM false ⟨some [], 7, -1, []⟩ [1]).2.seq = (7 + 1) % 256 :=
  (seq_increment ⟨some [], 7, -1, []⟩ [] [1] rfl).1

/-- C8 counterexample: on a write timeout `sendMessage` raises *before* the
`self.seq = (self.seq + 1) & 0xFF` of line 113 runs, so the sequence number
does not advance, contradicting "increments ... regardless of outcome —
including when the serial write times out". -/
theorem seq_increment_cex :
    (sendMessageM true ⟨some [], 5, -1, []⟩ [1]).1 = .error .sendTimeout ∧
    (sendMessageM true ⟨some [], 5, -1, []⟩ [1]).2.seq = 5 ∧
    (5 : Nat) ≠ (5 + 1) % 256 :=
  ⟨rfl, rfl, by decide⟩

/-- C10: the handle is a single Option-typed slot and connect on an open
instance behaves exactly as after closing the old transport first;
isConnected is precisely the presence of a handle: false after close, false
after a leaveISP that returns (rather than raises), and false after a failed
handshake, which closes the port before raising its protocol error. -/
theorem transport_ownership :
    (∀ c : Conn, isConnected c = c.serial.isSome) ∧
    (∀ c : Conn, isConnected (closeConn c) = false) ∧
    (∀ (c c' : Conn) (r : Option (List Nat)),
      leaveISPM c = (.ok r, c') → isConnected c' = false) ∧
    (∀ (c : Conn) (stream : List Nat),
      connectM c stream = connectM (closeConn c) stream) ∧
    (∀ (c : Conn) (stream : List Nat),
      (connectM c stream).1 = .error .protocolError →
      isConnected (connectM c stream).2 = false) := by
  refine ⟨fun c => rfl, fun c => rfl, ?_, connect_after_close, ?_⟩
  · intro c c' r h
    cases hser : c.serial with
    | none =>
      simp [leaveISPM, hser] at h
      rw [← h.2, isConnected, hser]
      rfl
    | some s =>
      cases hr : recvMessage s with
      | error e =>
        rw [leaveISPM, hser] at h
        simp only [sendM_err c s [0x11] e hser hr] at h
        simp at h
      | ok v =>
        obtain ⟨p, rest⟩ := v
        rw [leaveISPM, hser] at h
        simp only [sendM_ok c s [0x11] p rest hser hr] at h
        by_cases hp : p = [0x11, 0x00]
        · simp [hp] at h
          rw [← h.2]
          rfl
        · simp [hp] at h
  · intro c stream h
    cases hr1 : recvMessage stream with
    | error e =>
      have he : e = .timeout := recvLoop_err stream _ e hr1
      subst he
      cases hser : c.serial <;>
        simp [connectM, sendMessageM, hser, closeConn, hr1] at h
    | ok v1 =>
      obtain ⟨p, r1⟩ := v1
      cases hr2 : recvMessage r1 with
      | error e2 =>
        have he : e2 = .timeout := recvLoop_err r1 _ e2 hr2
        subst he
        cases hser : c.serial <;>
          simp [connectM, sendMessageM, hser, closeConn, hr1, hr2] at h
      | ok v2 =>
        obtain ⟨q, r2⟩ := v2
        have hrun := connectM_run c stream r1 r2 p q hr1 hr2
        rw [hrun] at h ⊢
        by_cases hq : q = [0x10, 0x00]
        · rw [if_pos hq] at h
          cases h
        · rw [if_neg hq]
          rfl

theorem transport_ownership_witness :
    isConnected (⟨none, 2, -1, [encodeFrame 1 [0x11]]⟩ : Conn) = false :=
  transport_ownership.2.2.1 ⟨some (encodeFrame 1 [0x11, 0x00]), 1, -1, []⟩
    ⟨none, 2, -1, [encodeFrame 1 [0x11]]⟩ (some []) (by rfl)

/-! ### Flash-programming lemmas -/

/-- `(L + P - 1) / P` is the ceiling of `L / P`: it is the least `k` with
`L ≤ k * P`; and the final chunk of a `P`-chunked list of length `L > 0` has
`L % P` elements (`P` when `P` divides `L`). -/
theorem ceil_div_facts (L P : Nat) (hP0 : 0 < P) :
    L ≤ (L + P - 1) / P * P ∧
    (∀ k, L ≤ k * P → (L + P - 1) / P ≤ k) ∧
    (0 < L → L - ((L + P - 1) / P - 1) * P = if L % P = 0 then P else L % P) := by
  have hdm : (L + P - 1) / P * P + (L + P - 1) % P = L + P - 1 := by
    rw [Nat.mul_comm ((L + P - 1) / P) P]
    exact Nat.div_add_mod (L + P - 1) P
  have hm : (L + P - 1) % P < P := Nat.mod_lt _ hP0
  have hub : L ≤ (L + P - 1) / P * P := by omega
  have hmin : ∀ k, L ≤ k * P → (L + P - 1) / P ≤ k := by
    intro k hk
    have hd : (k + 1) * P = k * P + 1 * P := by rw [Nat.add_mul]
    have h1 : L + P - 1 < (k + 1) * P := by omega
    have h2 := (Nat.div_lt_iff_lt_mul hP0).mpr h1
    omega
  refine ⟨hub, hmin, ?_⟩
  intro hL0
  have hqr : L / P * P + L % P = L := by
    rw [Nat.mul_comm (L / P) P]
    exact Nat.div_add_mod L P
  have hr : L % P < P := Nat.mod_lt _ hP0
  by_cases hr0 : L % P = 0
  · have hq1 : 1 ≤ L / P := by
      rcases Nat.eq_zero_or_pos (L / P) with h0 | h1
      · rw [h0] at hqr
        simp at hqr
        omega
      · exact h1
    have hle : (L + P - 1) / P ≤ L / P := hmin (L / P) (by omega)
    have hge : L / P ≤ (L + P - 1) / P := by
      have h5 : L / P * P ≤ (L + P - 1) / P * P := by omega
      exact Nat.le_of_mul_le_mul_right h5 hP0
    have hcnt : (L + P - 1) / P = L / P := le_antisymm hle hge
    have hsub : (L / P - 1) * P = L / P * P - 1 * P := by rw [Nat.sub_mul]
    have hP_le : 1 * P ≤ L / P * P := mul_le_mul_right' hq1 P
    rw [hcnt, if_pos hr0]
    omega
  · have hlt : L / P * P < L := by omega
    have hle : (L + P - 1) / P ≤ L / P + 1 := by
      apply hmin
      have hd : (L / P + 1) * P = L / P * P + 1 * P := by rw [Nat.add_mul]
      omega
    have hge : L / P + 1 ≤ (L + P - 1) / P := by
      by_contra hcon
      push_neg at hcon
      have h6 : (L + P - 1) / P ≤ L / P := by omega
      have h7 : (L + P - 1) / P * P ≤ L / P * P := mul_le_mul_right' h6 P
      omega
    have hcnt : (L + P - 1) / P = L / P + 1 := le_antisymm hle hge
    rw [hcnt, if_neg hr0]
    simp only [Nat.add_sub_cancel]
    omega

theorem loadAddrCmd_eq (n : Nat) :
    loadAddrCmd n = [0x06, if n > 0xFFFF then 0x80 else 0x00, 0x00, 0x00, 0x00] := by
  by_cases h : n > 0xFFFF <;> simp [loadAddrCmd, h]

/-! ### Claim theorems for the flash programmer / verifier -/

/-- C6: writeFlash and verifyFlash each begin with exactly one load-address
command: it addresses 0, its first address byte is `0x80` exactly when
`chip.pageSize * 2 * chip.pageCount > 0xFFFF` and `0x00` otherwise, and every
later command of the two passes is a program-page (`0x13`) resp. read-page
(`0x14`) command, never another load-address. -/
theorem ext_addr (chip : Chip) (flashData : List Nat) (hps : 0 < chip.pageSize) :
    (writeFlashCmds chip flashData).head? =
      some [0x06, if chip.pageSize * 2 * chip.pageCount > 0xFFFF then 0x80 else 0x00,
            0x00, 0x00, 0x00] ∧
    (verifyFlashCmds chip flashData).head? =
      some [0x06, if chip.pageSize * 2 * chip.pageCount > 0xFFFF then 0x80 else 0x00,
            0x00, 0x00, 0x00] ∧
    (∀ cmd ∈ (writeFlashCmds chip flashData).tail, cmd.head? = some 0x13) ∧
    (∀ cmd ∈ (verifyFlashCmds chip flashData).tail, cmd.head? = some 0x14) := by
  refine ⟨?_, ?_, ?_, ?_⟩
  · simp [writeFlashCmds, loadAddrCmd_eq]
  · simp [verifyFlashCmds, loadAddrCmd_eq]
  · intro cmd hcmd
    simp only [writeFlashCmds, List.tail_cons, List.mem_map] at hcmd
    obtain ⟨i, _, heq⟩ := hcmd
    rw [← heq]
    rfl
  · intro cmd hcmd
    simp only [verifyFlashCmds, List.tail_cons, List.mem_map] at hcmd
    obtain ⟨i, _, heq⟩ := hcmd
    rw [← heq]
    rfl

theorem ext_addr_witness :
    (writeFlashCmds ⟨2, 100⟩ [1, 2, 3]).head? = some [0x06, 0x00, 0x00, 0x00, 0x00] := by
  have h := (ext_addr ⟨2, 100⟩ [1, 2, 3] (by decide)).1
  simpa using h

/-- C5: for an image of length `L` and page size `P = chip.pageSize * 2`,
writeFlash issues exactly `ceil(L / P)` program-page commands — their number
is `(L + P - 1) / P`, the least `k` with `L ≤ k * P` — where the i-th
carries the image slice from offset `i * P` of length `min P (L - i * P)`
(i.e. up to `min ((i+1) * P) L`), so the last command carries `L % P` bytes
(`P` when `P` divides `L`), sent as-is without padding. -/
theorem chunk_count (chip : Chip) (flashData : List Nat) (P L : Nat)
    (hps : 0 < chip.pageSize) (hP : P = chip.pageSize * 2) (hL : L = flashData.length) :
    ((writeFlashCmds chip flashData).tail.length = (L + P - 1) / P) ∧
    (L ≤ (writeFlashCmds chip flashData).tail.length * P ∧
      ∀ k : Nat, L ≤ k * P → (writeFlashCmds chip flashData).tail.length ≤ k) ∧
    (∀ i < (writeFlashCmds chip flashData).tail.length,
      (writeFlashCmds chip flashData).tail.getD i [] =
        progPageHeader P ++ ((flashData.drop (i * P)).take P) ∧
      (((writeFlashCmds chip flashData).tail.getD i []).drop 10).length =
        min P (L - i * P)) ∧
    (0 < L →
      ((((writeFlashCmds chip flashData).tail.getD
          ((writeFlashCmds chip flashData).tail.length - 1) []).drop 10).length =
        if L % P = 0 then P else L % P)) := by
  subst hP
  subst hL
  have hP0 : 0 < chip.pageSize * 2 := by omega
  obtain ⟨hub, hmin, hlast⟩ := ceil_div_facts flashData.length (chip.pageSize * 2) hP0
  have hlen : (writeFlashCmds chip flashData).tail.length =
      (flashData.length + chip.pageSize * 2 - 1) / (chip.pageSize * 2) := by
    simp [writeFlashCmds]
  have hget : ∀ i, i < (flashData.length + chip.pageSize * 2 - 1) / (chip.pageSize * 2) →
      (writeFlashCmds chip flashData).tail.getD i [] =
        progPageHeader (chip.pageSize * 2) ++
          ((flashData.drop (i * (chip.pageSize * 2))).take (chip.pageSize * 2)) := by
    intro i hi
    simp [writeFlashCmds, List.getD_eq_getElem?_getD, List.getElem?_range hi]
  have hdrop : ∀ chunk : List Nat,
      (progPageHeader (chip.pageSize * 2) ++ chunk).drop 10 = chunk := by
    intro chunk
    exact List.drop_left' (by rfl)
  have hchunklen : ∀ i,
      ((flashData.drop (i * (chip.pageSize * 2))).take (chip.pageSize * 2)).length =
        min (chip.pageSize * 2) (flashData.length - i * (chip.pageSize * 2)) := by
    intro i
    simp [List.length_take, List.length_drop]
  refine ⟨hlen, ⟨?_, ?_⟩, ?_, ?_⟩
  · rw [hlen]
    exact hub
  · intro k hk
    rw [hlen]
    exact hmin k hk
  · intro i hi
    rw [hlen] at hi
    refine ⟨hget i hi, ?_⟩
    rw [hget i hi, hdrop, hchunklen]
  · intro hL0
    have hpos : 0 < (flashData.length + chip.pageSize * 2 - 1) / (chip.pageSize * 2) := by
      rcases Nat.eq_zero_or_pos
          ((flashData.length + chip.pageSize * 2 - 1) / (chip.pageSize * 2)) with h0 | h1
      · rw [h0, Nat.zero_mul] at hub
        omega
      · exact h1
    have hi : (flashData.length + chip.pageSize * 2 - 1) / (chip.pageSize * 2) - 1 <
        (flashData.length + chip.pageSize * 2 - 1) / (chip.pageSize * 2) := by omega
    rw [hlen, hget _ hi, hdrop, hchunklen, hlast hL0]
    have hle : (if flashData.length % (chip.pageSize * 2) = 0 then chip.pageSize * 2
        else flashData.length % (chip.pageSize * 2)) ≤ chip.pageSize * 2 := by
      split
      · exact le_refl _
      · exact Nat.le_of_lt (Nat.mod_lt _ hP0)
    exact Nat.min_eq_right hle

theorem find?_range'_none (p : Nat → Bool) :
    ∀ (n s : Nat), (∀ j, s ≤ j → j < s + n → p j = false) →
      (List.range' s n).find? p = none := by
  intro n
  induction n with
  | zero =>
    intro s _
    rfl
  | succ m ih =>
    intro s h
    rw [List.range'_succ]
    rw [List.find?_cons_of_neg _ (by simp [h s (le_refl s) (by omega)])]
    exact ih (s + 1) (fun j h1 h2 => h j (by omega) (by omega))

theorem find?_range'_some (p : Nat → Bool) :
    ∀ (n s j0 : Nat), s ≤ j0 → j0 < s + n → p j0 = true →
      (∀ j, s ≤ j → j < j0 → p j = false) →
      (List.range' s n).find? p = some j0 := by
  intro n
  induction n with
  | zero =>
    intro s j0 h1 h2 _ _
    omega
  | succ m ih =>
    intro s j0 h1 h2 hp hbef
    rw [List.range'_succ]
    by_cases hs : j0 = s
    · subst hs
      rw [List.find?_cons_of_pos _ (by exact hp)]
    · have hfalse : p s = false := hbef s (le_refl s) (by omega)
      rw [List.find?_cons_of_neg _ (by simp [hfalse])]
      exact ih (s + 1) j0 (by omega) (by omega) hp (fun j hj1 hj2 => hbef j (by omega) hj2)

/-- Byte `j` of block `i`'s sliced reply is the read-back byte at absolute
offset `i * 0x100 + j`. -/
theorem recvAt_eq (replies : List (List Nat)) (i j : Nat) (hj : j < 0x100) :
    (((replies.getD i []).drop 2).take 0x100).getD j 0 =
      readBackAt replies (i * 0x100 + j) := by
  unfold readBackAt
  have hdiv : (i * 0x100 + j) / 0x100 = i := by omega
  have hmod : (i * 0x100 + j) % 0x100 = j := by omega
  rw [hdiv, hmod]

/-- The comparison loop, run over any suffix of blocks that still contains
the block of the first mismatching offset `K`, stops exactly there. -/
theorem verifyBlocks_err (fd : List Nat) (replies : List (List Nat)) (K : Nat)
    (hK : K < fd.length)
    (hagree : ∀ n, n < K → readBackAt replies n = fd.getD n 0)
    (hdiff : readBackAt replies K ≠ fd.getD K 0) :
    ∀ (m s : Nat), s ≤ K / 0x100 → K / 0x100 < s + m →
      verifyBlocks fd replies (List.range' s m) = .error (.verifyError K) := by
  intro m
  induction m with
  | zero =>
    intro s h1 h2
    omega
  | succ m' ih =>
    intro s h1 h2
    rw [List.range'_succ]
    by_cases hs : s = K / 0x100
    · subst hs
      have hfind : (List.range 0x100).find? (fun j =>
          decide (K / 0x100 * 0x100 + j < fd.length ∧
            fd.getD (K / 0x100 * 0x100 + j) 0 ≠
              (((replies.getD (K / 0x100) []).drop 2).take 0x100).getD j 0)) =
          some (K % 0x100) := by
        rw [List.range_eq_range']
        apply find?_range'_some _ 0x100 0 (K % 0x100) (by omega) (by omega)
        · apply decide_eq_true
          have hoff : K / 0x100 * 0x100 + K % 0x100 = K := by omega
          rw [hoff, recvAt_eq replies (K / 0x100) (K % 0x100) (by omega), hoff]
          exact ⟨hK, fun h => hdiff h.symm⟩
        · intro j _ hjlt
          apply decide_eq_false
          intro hcontra
          have hoff : K / 0x100 * 0x100 + j < K := by omega
          rw [recvAt_eq replies (K / 0x100) j (by omega)] at hcontra
          exact hcontra.2 (hagree _ hoff).symm
      simp only [verifyBlocks]
      rw [hfind]
      show Except.error (IspErr.verifyError (K / 0x100 * 0x100 + K % 0x100)) =
        Except.error (IspErr.verifyError K)
      have hoff : K / 0x100 * 0x100 + K % 0x100 = K := by omega
      rw [hoff]
    · have hfind : (List.range 0x100).find? (fun j =>
          decide (s * 0x100 + j < fd.length ∧
            fd.getD (s * 0x100 + j) 0 ≠
              (((replies.getD s []).drop 2).take 0x100).getD j 0)) = none := by
        rw [List.range_eq_range']
        apply find?_range'_none
        intro j _ hjlt
        apply decide_eq_false
        intro hcontra
        have hoff : s * 0x100 + j < K := by omega
        rw [recvAt_eq replies s j (by omega)] at hcontra
        exact hcontra.2 (hagree _ hoff).symm
      simp only [verifyBlocks]
      rw [hfind]
      show verifyBlocks fd replies (List.range' (s + 1) m') =
        Except.error (IspErr.verifyError K)
      exact ih (s + 1) (by omega) (by omega)

/-- C7: if `K` is the smallest offset inside the expected image at which the
read-back stream differs, verifyFlash stops at the first mismatch and
reports exactly offset `K`; offsets beyond `K` are unconstrained (the
read-back bytes there are universally quantified), so the outcome does not
depend on them.  The replies are assumed well-formed (at least 0x102 bytes
each, one per 256-byte block), where the model and the source agree. -/
theorem verify_first_mismatch (fd : List Nat) (replies : List (List Nat)) (K : Nat)
    (hwf : ∀ r ∈ replies, 0x102 ≤ r.length)
    (hcnt : (fd.length + 0xFF) / 0x100 ≤ replies.length)
    (hK : K < fd.length)
    (hagree : ∀ n, n < K → readBackAt replies n = fd.getD n 0)
    (hdiff : readBackAt replies K ≠ fd.getD K 0) :
    verifyFlashCheck fd replies = .error (.verifyError K) := by
  unfold verifyFlashCheck
  rw [List.range_eq_range']
  exact verifyBlocks_err fd replies K hK hagree hdiff _ 0 (by omega) (by omega)

set_option maxRecDepth 100000 in
theorem verify_first_mismatch_witness :
    verifyFlashCheck [1, 2, 3] [[0, 0, 1, 2, 9] ++ List.replicate 253 0] =
      .error (.verifyError 2) := by
  apply verify_first_mismatch
  · decide
  · decide
  · decide
  · decide
  · decide

theorem chunk_count_witness :
    (writeFlashCmds ⟨2, 100⟩ [1, 2, 3, 4, 5, 6, 7, 8, 9]).tail.length = (9 + 4 - 1) / 4 ∧
    (((writeFlashCmds ⟨2, 100⟩ [1, 2, 3, 4, 5, 6, 7, 8, 9]).tail.getD
        ((writeFlashCmds ⟨2, 100⟩ [1, 2, 3, 4, 5, 6, 7, 8, 9]).tail.length - 1) []).drop
        10).length =
      (if 9 % 4 = 0 then 4 else 9 % 4) := by
  have h := chunk_count ⟨2, 100⟩ [1, 2, 3, 4, 5, 6, 7, 8, 9] 4 9
    (by decide) (by decide) (by decide)
  exact ⟨h.1, h.2.2.2 (by decide)⟩
